import Mathlib

/-!
Verification of the long-text chunking and stateless pagination logic of
`bot.py` (a poetry-serving messaging bot).  Python strings are modelled as
`List Char`; Python ints as `Int` (non-negative values as `Nat` where the
source only produces those); a raised-and-uncaught exception or a
non-terminating loop is modelled by `Option.none` of a fueled loop.
-/

namespace BalkhiBot

/-- Python `s.rfind(c)` restricted to single-character needles: the highest
index of `c` in `l`, or `-1` when `c` does not occur (as in `part.rfind('\n')`
at `bot.py:418`). -/
def pyRfind : List Char → Char → Int
  | [], _ => -1
  | a :: rest, c =>
    let r := pyRfind rest c
    if 0 ≤ r then r + 1
    else if a = c then 0 else -1

/-- One iteration body of the `while text:` loop of `split_long_message`
(`bot.py:416-420`): the emitted part.  `part = text[:max_length]`; if
`part.rfind('\n') > max_length * 0.8` then `part = text[:last_line_break]`.
The float comparison `last_line_break > max_length * 0.8` is modelled exactly
by the integer comparison `5 * last_line_break > 4 * max_length` (for the
sizes in use, `max_length * 0.8` in IEEE double rounds to exactly the
rational `4 * max_length / 5` whenever that is an integer, and the
double's error never crosses an integer otherwise). -/
def splitStep (maxLen : Nat) (text : List Char) : List Char :=
  let part := text.take maxLen
  let lb := pyRfind part '\n'
  if 4 * (maxLen : Int) < 5 * lb then text.take lb.toNat else part

/-- The fueled `while text:` loop of `split_long_message` (`bot.py:415-423`).
Each iteration appends `splitStep` and advances the text past exactly the
emitted part (`text = text[len(part):]`).  `none` models non-termination:
the Python loop has no other exit. -/
def splitLoop (maxLen : Nat) : Nat → List Char → Option (List (List Char))
  | _, [] => some []
  | 0, _ :: _ => none
  | fuel + 1, c :: rest =>
    let chunk := splitStep maxLen (c :: rest)
    Option.map (fun r => chunk :: r)
      (splitLoop maxLen fuel ((c :: rest).drop chunk.length))

/-- `split_long_message(text, max_length)` (`bot.py:411-423`).  The fuel
`text.length` is sufficient whenever the loop terminates at all, because an
iteration that makes progress consumes at least one character; `none` means
the Python loop never terminates on this input. -/
def split_long_message (text : List Char) (maxLen : Nat) :
    Option (List (List Char)) :=
  if text.length ≤ maxLen then some [text]
  else splitLoop maxLen text.length text

/-! ### Basic facts about `pyRfind` -/

theorem pyRfind_lt_length (l : List Char) (c : Char) :
    pyRfind l c < (l.length : Int) := by
  induction l with
  | nil => simp [pyRfind]
  | cons a rest ih =>
    simp only [pyRfind, List.length_cons]
    split
    · push_cast; omega
    · split <;> push_cast <;> omega

theorem pyRfind_getElem (l : List Char) (c : Char) (h : 0 ≤ pyRfind l c) :
    l[(pyRfind l c).toNat]? = some c := by
  induction l with
  | nil => simp [pyRfind] at h
  | cons a rest ih =>
    by_cases hr : 0 ≤ pyRfind rest c
    · have ht : (pyRfind rest c + 1).toNat = (pyRfind rest c).toNat + 1 := by
        omega
      simp only [pyRfind, if_pos hr, ht]
      simpa using ih hr
    · by_cases hac : a = c
      · simp only [pyRfind, if_neg hr, if_pos hac]
        simp [hac]
      · simp only [pyRfind, if_neg hr, if_neg hac] at h
        omega

/-! ### Basic facts about `splitStep` -/

theorem splitStep_eq_take (maxLen : Nat) (text : List Char) :
    ∃ k, splitStep maxLen text = text.take k := by
  simp only [splitStep]
  split
  · exact ⟨_, rfl⟩
  · exact ⟨maxLen, rfl⟩

theorem splitStep_length_le (maxLen : Nat) (text : List Char) :
    (splitStep maxLen text).length ≤ maxLen := by
  simp only [splitStep]
  split
  · rename_i h
    have hlt := pyRfind_lt_length (text.take maxLen) '\n'
    simp only [List.length_take] at hlt
    have : (pyRfind (text.take maxLen) '\n').toNat ≤ maxLen := by omega
    simp only [List.length_take]
    omega
  · simp only [List.length_take]
    omega

theorem splitStep_length_pos (maxLen : Nat) (text : List Char)
    (hmax : 1 ≤ maxLen) (htext : text ≠ []) :
    1 ≤ (splitStep maxLen text).length := by
  have hlen : 1 ≤ text.length := by
    cases text with
    | nil => exact absurd rfl htext
    | cons a l => simp
  simp only [splitStep]
  split
  · rename_i h
    have hpos : 1 ≤ (pyRfind (text.take maxLen) '\n').toNat := by omega
    simp only [List.length_take]
    omega
  · simp only [List.length_take]
    omega

theorem splitStep_append_drop (maxLen : Nat) (text : List Char) :
    splitStep maxLen text ++ text.drop (splitStep maxLen text).length = text := by
  obtain ⟨k, hk⟩ := splitStep_eq_take maxLen text
  have h1 : splitStep maxLen text = text.take (splitStep maxLen text).length := by
    rw [hk, List.length_take]
    rw [List.take_eq_take]
    omega
  calc splitStep maxLen text ++ text.drop (splitStep maxLen text).length
      = text.take (splitStep maxLen text).length ++
        text.drop (splitStep maxLen text).length := by rw [← h1]
    _ = text := List.take_append_drop _ _

/-! ### The loop: termination, concatenation, bounds -/

theorem splitLoop_isSome (maxLen : Nat) (hmax : 1 ≤ maxLen) :
    ∀ fuel text, text.length ≤ fuel → (splitLoop maxLen fuel text).isSome := by
  intro fuel
  induction fuel with
  | zero =>
    intro text hlen
    have : text = [] := by
      cases text with
      | nil => rfl
      | cons a l => simp at hlen
    subst this
    simp [splitLoop]
  | succ n ih =>
    intro text hlen
    cases text with
    | nil => simp [splitLoop]
    | cons c rest =>
      have hprog := splitStep_length_pos maxLen (c :: rest) hmax (by simp)
      have hrec : ((c :: rest).drop (splitStep maxLen (c :: rest)).length).length ≤ n := by
        rw [List.length_drop]
        simp only [List.length_cons] at hlen ⊢
        omega
      have := ih _ hrec
      simp only [splitLoop]
      cases hcase : splitLoop maxLen n ((c :: rest).drop (splitStep maxLen (c :: rest)).length) with
      | none => rw [hcase] at this; simp at this
      | some r => simp [hcase]

theorem splitLoop_join (maxLen : Nat) :
    ∀ fuel text parts, splitLoop maxLen fuel text = some parts →
      parts.flatten = text := by
  intro fuel
  induction fuel with
  | zero =>
    intro text parts h
    cases text with
    | nil =>
      simp only [splitLoop, Option.some.injEq] at h
      subst h; rfl
    | cons c rest => simp [splitLoop] at h
  | succ n ih =>
    intro text parts h
    cases text with
    | nil =>
      simp only [splitLoop, Option.some.injEq] at h
      subst h; rfl
    | cons c rest =>
      simp only [splitLoop, Option.map_eq_some'] at h
      obtain ⟨r, hr, hparts⟩ := h
      subst hparts
      simp only [List.flatten_cons]
      rw [ih _ _ hr]
      exact splitStep_append_drop maxLen (c :: rest)

theorem splitLoop_bound (maxLen : Nat) :
    ∀ fuel text parts, splitLoop maxLen fuel text = some parts →
      ∀ p ∈ parts, p.length ≤ maxLen := by
  intro fuel
  induction fuel with
  | zero =>
    intro text parts h p hp
    cases text with
    | nil =>
      simp only [splitLoop, Option.some.injEq] at h
      subst h; simp at hp
    | cons c rest => simp [splitLoop] at h
  | succ n ih =>
    intro text parts h p hp
    cases text with
    | nil =>
      simp only [splitLoop, Option.some.injEq] at h
      subst h; simp at hp
    | cons c rest =>
      simp only [splitLoop, Option.map_eq_some'] at h
      obtain ⟨r, hr, hparts⟩ := h
      subst hparts
      rcases List.mem_cons.mp hp with hc | hm
      · subst hc
        exact splitStep_length_le maxLen (c :: rest)
      · exact ih _ _ hr p hm

theorem splitLoop_zero_none :
    ∀ fuel text, text ≠ [] → splitLoop 0 fuel text = none := by
  intro fuel
  induction fuel with
  | zero =>
    intro text htext
    cases text with
    | nil => exact absurd rfl htext
    | cons c rest => simp [splitLoop]
  | succ n ih =>
    intro text htext
    cases text with
    | nil => exact absurd rfl htext
    | cons c rest =>
      have hstep : splitStep 0 (c :: rest) = [] := by
        unfold splitStep
        simp [pyRfind]
      simp only [splitLoop, hstep]
      rw [List.length_nil, List.drop_zero, ih (c :: rest) (by simp)]
      rfl

/-! ### Python list indexing and `str.split` -/

/-- Python `l[i]` for an `int` index: negative indices count from the end;
an index that is still out of range raises `IndexError`, modelled as
`none`. -/
def pyIndex (l : List α) (i : Int) : Option α :=
  let j := if i < 0 then (l.length : Int) + i else i
  if 0 ≤ j then l[j.toNat]? else none

/-- Python `s.split(sep)` for a single-character separator, over
`List Char` (as in `data.split("_")` at `bot.py:1127`). -/
def pySplit (sep : Char) : List Char → List (List Char)
  | [] => [[]]
  | c :: rest =>
    if c = sep then [] :: pySplit sep rest
    else
      match pySplit sep rest with
      | [] => [[c]]
      | h :: t => (c :: h) :: t

/-- Python `[poems[i:i+k] for i in range(0, len(poems), k)]`
(`bot.py:573`), fueled; the call site uses `k = 10`, and fuel
`l.length` is enough for any `k ≥ 1`. -/
def pyChunksAux (k : Nat) : Nat → List α → List (List α)
  | 0, _ => []
  | _ + 1, [] => []
  | fuel + 1, a :: l => (a :: l).take k :: pyChunksAux k fuel ((a :: l).drop k)

def pyChunks (k : Nat) (l : List α) : List (List α) :=
  pyChunksAux k l.length l

/-! ### Decimal digits: Python `str(n)` and `int(s)` -/

/-- Decimal digit characters of a natural number, fueled
(`natDigits` below supplies enough fuel): models Python `str(n)`
for `n ≥ 0`. -/
def natDigitsAux : Nat → Nat → List Char
  | 0, _ => []
  | fuel + 1, n =>
    if n < 10 then [Char.ofNat (48 + n)]
    else natDigitsAux fuel (n / 10) ++ [Char.ofNat (48 + n % 10)]

/-- Python `str(n)` for a non-negative int `n`. -/
def natDigits (n : Nat) : List Char :=
  natDigitsAux (n + 1) n

/-- `some d` when `c` is the decimal digit `d`. -/
def digitVal (c : Char) : Option Nat :=
  if 48 ≤ c.toNat ∧ c.toNat ≤ 57 then some (c.toNat - 48) else none

/-- One step of decimal accumulation; `none` is sticky. -/
def digitStep (acc : Option Nat) (c : Char) : Option Nat :=
  match acc, digitVal c with
  | some a, some d => some (10 * a + d)
  | _, _ => none

/-- Value of a non-empty all-digit string; `none` otherwise. -/
def digitsToNat (l : List Char) : Option Nat :=
  match l with
  | [] => none
  | _ :: _ => l.foldl digitStep (some 0)

/-- Python `int(s)`: optional sign followed by at least one decimal digit.
(Python additionally strips whitespace and allows `_` between digits;
neither form is ever produced by this bot's token encoder, and such strings
are rejected here.) -/
def parsePyInt (s : List Char) : Option Int :=
  match s with
  | [] => none
  | c :: rest =>
    if c = '-' then (digitsToNat rest).map (fun n => -(n : Int))
    else if c = '+' then (digitsToNat rest).map (fun n => (n : Int))
    else (digitsToNat (c :: rest)).map (fun n => (n : Int))

/-! ### Facts about decimal digits -/

theorem digitVal_char (d : Nat) (h : d < 10) :
    digitVal (Char.ofNat (48 + d)) = some d := by
  interval_cases d <;> decide

theorem char_digit_ne (d : Nat) (h : d < 10) :
    Char.ofNat (48 + d) ≠ '_' ∧ Char.ofNat (48 + d) ≠ '-' ∧
      Char.ofNat (48 + d) ≠ '+' := by
  interval_cases d <;> decide

theorem natDigitsAux_mem :
    ∀ fuel n c, c ∈ natDigitsAux fuel n → ∃ d, d < 10 ∧ c = Char.ofNat (48 + d) := by
  intro fuel
  induction fuel with
  | zero => intro n c h; simp [natDigitsAux] at h
  | succ m ih =>
    intro n c h
    simp only [natDigitsAux] at h
    split at h
    · rename_i h10
      simp only [List.mem_singleton] at h
      subst h
      exact ⟨n, h10, rfl⟩
    · rcases List.mem_append.mp h with h1 | h2
      · exact ih _ _ h1
      · simp only [List.mem_singleton] at h2
        subst h2
        exact ⟨n % 10, Nat.mod_lt _ (by omega), rfl⟩

theorem natDigits_no_underscore (n : Nat) : '_' ∉ natDigits n := by
  intro hmem
  obtain ⟨d, hd, hc⟩ := natDigitsAux_mem _ _ _ hmem
  exact (char_digit_ne d hd).1 hc.symm

theorem natDigits_ne_nil (n : Nat) : natDigits n ≠ [] := by
  unfold natDigits natDigitsAux
  split
  · simp
  · simp

theorem natDigitsAux_foldl :
    ∀ fuel n a, n ≤ fuel →
      (natDigitsAux fuel n).foldl digitStep (some a) =
        some (a * 10 ^ (natDigitsAux fuel n).length + n) := by
  intro fuel
  induction fuel with
  | zero =>
    intro n a h
    have : n = 0 := by omega
    subst this
    simp [natDigitsAux]
  | succ m ih =>
    intro n a h
    by_cases h10 : n < 10
    · simp only [natDigitsAux, if_pos h10, List.foldl_cons, List.foldl_nil,
        List.length_singleton]
      simp [digitStep, digitVal_char n h10]
      ring
    · have hdiv : n / 10 ≤ m := by omega
      simp only [natDigitsAux, if_neg h10, List.foldl_append, List.foldl_cons,
        List.foldl_nil, List.length_append, List.length_singleton]
      rw [ih (n / 10) a hdiv]
      have hmod : n % 10 < 10 := Nat.mod_lt _ (by omega)
      simp only [digitStep, digitVal_char (n % 10) hmod]
      have : 10 * (a * 10 ^ (natDigitsAux m (n / 10)).length + n / 10) + n % 10 =
          a * 10 ^ ((natDigitsAux m (n / 10)).length + 1) + n := by
        rw [pow_succ]
        have := Nat.div_add_mod n 10
        ring_nf
        omega
      rw [this]

theorem digitsToNat_natDigits (n : Nat) : digitsToNat (natDigits n) = some n := by
  cases hl : natDigits n with
  | nil => exact absurd hl (natDigits_ne_nil n)
  | cons c rest =>
    have hfold := natDigitsAux_foldl (n + 1) n 0 (by omega)
    rw [show natDigitsAux (n + 1) n = natDigits n from rfl, hl] at hfold
    simp only [digitsToNat]
    rw [hfold]
    simp

theorem parsePyInt_natDigits (n : Nat) : parsePyInt (natDigits n) = some (n : Int) := by
  cases hl : natDigits n with
  | nil => exact absurd hl (natDigits_ne_nil n)
  | cons c rest =>
    have hmem : c ∈ natDigits n := by rw [hl]; simp
    obtain ⟨d, hd, hc⟩ := natDigitsAux_mem _ _ _ hmem
    subst hc
    have hne := char_digit_ne d hd
    simp only [parsePyInt, if_neg hne.2.1, if_neg hne.2.2]
    rw [← hl, digitsToNat_natDigits]
    simp

/-! ### Facts about `pySplit` -/

theorem pySplit_no_sep (sep : Char) (l : List Char) (h : sep ∉ l) :
    pySplit sep l = [l] := by
  induction l with
  | nil => simp [pySplit]
  | cons c rest ih =>
    have hc : c ≠ sep := fun he => h (he ▸ List.mem_cons_self c rest)
    have hrest : sep ∉ rest := fun hm => h (List.mem_cons_of_mem c hm)
    simp only [pySplit, if_neg hc, ih hrest]

theorem pySplit_append (sep : Char) (xs rest : List Char) (h : sep ∉ xs) :
    pySplit sep (xs ++ sep :: rest) = xs :: pySplit sep rest := by
  induction xs with
  | nil => simp [pySplit]
  | cons c xs ih =>
    have hc : c ≠ sep := fun he => h (he ▸ List.mem_cons_self c xs)
    have hxs : sep ∉ xs := fun hm => h (List.mem_cons_of_mem c hm)
    simp only [List.cons_append, pySplit, if_neg hc]
    rw [show xs.append (sep :: rest) = xs ++ sep :: rest from rfl, ih hxs]

/-! ### The pagination token codec -/

/-- The callback-data encoder of `send_poem` (`bot.py:694,699,762`):
`f"poem_{poem_id}_{volume_number}_{part}"` for non-negative
`poem_id` and `part`. -/
def encode_poem_token (poemId : Nat) (volume : List Char) (part : Nat) :
    List Char :=
  "poem".toList ++ '_' :: (natDigits poemId ++ '_' :: (volume ++ '_' :: natDigits part))

/-- The spec's decode-failure taxonomy: a field of the token is missing or
its integer field fails to parse (`MalformedToken`), or the chunk-index
field fails to parse (`InvalidChunkIndex`).  In the source every such
failure is an `IndexError`/`ValueError` caught by the same
`except` clause at `bot.py:1132-1134`. -/
inductive TokenError
  | malformedToken
  | invalidChunkIndex
deriving DecidableEq

/-- The decoder of `button_callback`'s `poem_` branch (`bot.py:1127-1130`):
`parts = data.split("_")`; `poem_id = int(parts[1])`;
`volume_number = parts[2] if len(parts) > 2 else None`;
`part = int(parts[3]) if len(parts) > 3 else 0`. -/
def decode_poem_token (data : List Char) :
    Except TokenError (Int × Option (List Char) × Int) :=
  let parts := pySplit '_' data
  match parts[1]? with
  | none => .error .malformedToken
  | some f1 =>
    match parsePyInt f1 with
    | none => .error .malformedToken
    | some pid =>
      match parts[3]? with
      | none => .ok (pid, parts[2]?, 0)
      | some f3 =>
        match parsePyInt f3 with
        | none => .error .invalidChunkIndex
        | some pt => .ok (pid, parts[2]?, pt)

/-- Outcome of the `poem_` branch of `button_callback`
(`bot.py:1125-1134`): either `send_poem` is invoked with the decoded
triple (`show_full=True`), or the `except` clause answers with the
retry alert `"⚠️ Хатогӣ дар гирифтани шеър"`. -/
inductive CallbackResponse
  | invoke (poemId : Int) (volume : Option (List Char)) (part : Int)
  | retryAlert
deriving DecidableEq

def button_callback_poem (data : List Char) : CallbackResponse :=
  match decode_poem_token data with
  | .error _ => .retryAlert
  | .ok (pid, vol, pt) => .invoke pid vol pt

/-! ### `send_poem`'s chunk rendering -/

/-- Outcome of `send_poem`'s full-view path: a rendered view carrying the
current chunk, the part index and the chunk count, or the generic error
response `"⚠️ Хатогӣ ҳангоми фиристодани шеър."` produced by the
`except` clause at `bot.py:774-776`. -/
inductive RenderResult
  | view (chunkText : List Char) (partIndex : Int) (totalParts : Nat)
  | errorMessage
deriving DecidableEq

/-- The chunk-selection core of `send_poem` with `show_full=True`
(`bot.py:677-685`): `text_parts = split_long_message(poem_text, 3000)`;
`current_part = text_parts[part]`.  An out-of-range `part` raises
`IndexError`, which the `except` at `bot.py:774` turns into the generic
error message. -/
def send_poem_render (poemText : List Char) (part : Int) : RenderResult :=
  match split_long_message poemText 3000 with
  | none => .errorMessage
  | some textParts =>
    match pyIndex textParts part with
    | none => .errorMessage
    | some current => .view current part textParts.length

/-! ### `show_poems_page`'s page clamping -/

/-- The pagination core of `show_poems_page` (`bot.py:572-581`):
`poem_chunks = [poems[i:i+10] ...]`; `if page < 1 or page > total_pages:
page = 1`; `current_chunk = page - 1`; `current_poems =
poem_chunks[current_chunk]`.  Returns the effective page together with
the selected chunk (`none` would be an `IndexError`). -/
def show_poems_page_select (poems : List Nat) (page : Int) :
    Int × Option (List Nat) :=
  let poem_chunks := pyChunks 10 poems
  let total_pages := poem_chunks.length
  let page2 := if page < 1 ∨ (total_pages : Int) < page then 1 else page
  let current_chunk := page2 - 1
  (page2, pyIndex poem_chunks current_chunk)

/-! ### Facts about `pyIndex` -/

theorem pyIndex_isSome {α : Type} (l : List α) (i : Int)
    (h0 : 0 ≤ i) (hlt : i < (l.length : Int)) : (pyIndex l i).isSome := by
  simp only [pyIndex]
  rw [if_neg (show ¬ i < 0 by omega), if_pos h0]
  have : i.toNat < l.length := by omega
  simp [List.getElem?_eq_getElem this]

theorem pyIndex_none_of_ge {α : Type} (l : List α) (i : Int)
    (hge : (l.length : Int) ≤ i) : pyIndex l i = none := by
  have h0 : 0 ≤ i := le_trans (by positivity) hge
  simp only [pyIndex]
  rw [if_neg (show ¬ i < 0 by omega), if_pos h0]
  exact List.getElem?_eq_none (by omega)

theorem pyChunks_length_pos {α : Type} (k : Nat) (l : List α) (h : l ≠ []) :
    1 ≤ (pyChunks k l).length := by
  cases l with
  | nil => exact absurd rfl h
  | cons a t => simp [pyChunks, pyChunksAux]

/-! ## The claims -/

/-- C1: for every body and every `max_chunk_size > 0`, joining the sequence
returned by `split_long_message` with the exact removed separators reproduces
the body byte-for-byte.  The code removes no separators at all (even a cut
at a line break leaves the newline at the head of the remaining text), so
the join is plain concatenation, and concatenation of the chunks is the
body. -/
theorem C1_chunk_roundtrip (text : List Char) (maxLen : Nat) (hmax : 0 < maxLen) :
    ∃ parts, split_long_message text maxLen = some parts ∧
      parts.flatten = text := by
  unfold split_long_message
  split
  · exact ⟨[text], rfl, by simp⟩
  · have hsome := splitLoop_isSome maxLen hmax text.length text (le_refl _)
    cases hcase : splitLoop maxLen text.length text with
    | none => rw [hcase] at hsome; simp at hsome
    | some parts => exact ⟨parts, rfl, splitLoop_join maxLen _ _ _ hcase⟩

theorem C1_chunk_roundtrip_witness :
    ∃ parts, split_long_message ("ab\ncd".toList) 2 = some parts ∧
      parts.flatten = "ab\ncd".toList :=
  C1_chunk_roundtrip ("ab\ncd".toList) 2 (by decide)

/-- C2: for every body and every `max_chunk_size > 0`, every chunk produced
by `split_long_message` has length at most `max_chunk_size`. -/
theorem C2_chunks_bounded (text : List Char) (maxLen : Nat)
    (parts : List (List Char)) (hmax : 0 < maxLen)
    (h : split_long_message text maxLen = some parts) :
    ∀ chunk ∈ parts, chunk.length ≤ maxLen := by
  unfold split_long_message at h
  split at h
  · rename_i hle
    obtain rfl : [text] = parts := by injection h
    intro chunk hc
    simp only [List.mem_singleton] at hc
    subst hc
    exact hle
  · intro chunk hc
    exact splitLoop_bound maxLen _ _ _ h chunk hc

theorem C2_chunks_bounded_witness :
    split_long_message ("ab\ncd".toList) 2 =
        some ["ab".toList, "\nc".toList, "d".toList] ∧
      ("\nc".toList).length ≤ 2 :=
  ⟨by decide,
   C2_chunks_bounded ("ab\ncd".toList) 2
     ["ab".toList, "\nc".toList, "d".toList] (by decide) (by decide)
     ("\nc".toList) (by decide)⟩

/-- C3 counterexample: the claim says that after a cut at a line break the
remaining text resumes PAST the consumed line-break, which would make
`split_long_message("abcdefghi\nXY", 10)` equal `["abcdefghi", "XY"]`.
In the code `text = text[len(part):]` keeps the newline: the result is
`["abcdefghi", "\nXY"]`, the second chunk starting with the line break. -/
theorem C3_counterexample :
    split_long_message ("abcdefghi\nXY".toList) 10 =
        some ["abcdefghi".toList, "\nXY".toList] ∧
      split_long_message ("abcdefghi\nXY".toList) 10 ≠
        some ["abcdefghi".toList, "XY".toList] :=
  ⟨by decide, by decide⟩

/-- C3 (amended): each chunking step takes the leading window of up to
`max_chunk_size` characters and looks for the last line break in it; if that
break sits at a position greater than `max_chunk_size * 0.8` the cut is made
there and the newline is dropped from the emitted chunk, BUT the remaining
text resumes AT the line break (its first character is the newline — the
break is not consumed); otherwise the cut is exactly the window; the loop
then continues on the text past the emitted chunk. -/
theorem C3_step_behavior (maxLen fuel : Nat) (text : List Char)
    (hmax : 0 < maxLen) (htext : text ≠ []) :
    (4 * (maxLen : Int) < 5 * pyRfind (text.take maxLen) '\n' →
        splitStep maxLen text =
            text.take (pyRfind (text.take maxLen) '\n').toNat ∧
          (text.drop (splitStep maxLen text).length).head? = some '\n') ∧
    (¬ 4 * (maxLen : Int) < 5 * pyRfind (text.take maxLen) '\n' →
        splitStep maxLen text = text.take maxLen) ∧
    splitLoop maxLen (fuel + 1) text =
      Option.map (fun r => splitStep maxLen text :: r)
        (splitLoop maxLen fuel (text.drop (splitStep maxLen text).length)) := by
  have hlen : 1 ≤ text.length := by
    cases text with
    | nil => exact absurd rfl htext
    | cons a l => simp
  refine ⟨?_, ?_, ?_⟩
  · intro hbr
    have hstep : splitStep maxLen text =
        text.take (pyRfind (text.take maxLen) '\n').toNat := by
      simp only [splitStep, if_pos hbr]
    refine ⟨hstep, ?_⟩
    have hb := pyRfind_lt_length (text.take maxLen) '\n'
    simp only [List.length_take] at hb
    have h0 : 0 ≤ pyRfind (text.take maxLen) '\n' := by omega
    have hltlen : (pyRfind (text.take maxLen) '\n').toNat < text.length := by
      omega
    have hltmax : (pyRfind (text.take maxLen) '\n').toNat < maxLen := by
      omega
    have hchar := pyRfind_getElem (text.take maxLen) '\n' h0
    rw [List.getElem?_take_of_lt hltmax] at hchar
    have hlength : (splitStep maxLen text).length =
        (pyRfind (text.take maxLen) '\n').toNat := by
      rw [hstep, List.length_take]
      omega
    rw [hlength, List.head?_drop]
    exact hchar
  · intro hbr
    simp only [splitStep, if_neg hbr]
  · cases text with
    | nil => exact absurd rfl htext
    | cons c rest => rfl

theorem C3_step_behavior_witness :
    splitStep 10 ("abcdefghi\nXY".toList) =
        ("abcdefghi\nXY".toList).take
          (pyRfind (("abcdefghi\nXY".toList).take 10) '\n').toNat ∧
      (("abcdefghi\nXY".toList).drop
          (splitStep 10 ("abcdefghi\nXY".toList)).length).head? = some '\n' :=
  (C3_step_behavior 10 1 ("abcdefghi\nXY".toList) (by decide) (by decide)).1
    (by decide)

/-- C4: if `length(body) ≤ max_chunk_size` (and `max_chunk_size > 0`),
`split_long_message` returns exactly `[body]` (`bot.py:412-413`). -/
theorem C4_single_chunk (text : List Char) (maxLen : Nat)
    (hmax : 0 < maxLen) (hlen : text.length ≤ maxLen) :
    split_long_message text maxLen = some [text] := by
  unfold split_long_message
  rw [if_pos hlen]

theorem C4_single_chunk_witness :
    split_long_message ("ab".toList) 5 = some ["ab".toList] :=
  C4_single_chunk ("ab".toList) 5 (by decide) (by decide)

/-- C5: for every triple `(poem_id, part, volume)` with a delimiter-free
volume identifier, decoding the callback token `"poem_<id>_<volume>_<part>"`
produced by `send_poem`'s encoder recovers exactly the same triple:
`button_callback` splits on `"_"` and parses the id and the chunk index
with `int`. -/
theorem C5_token_roundtrip (pid part : Nat) (vol : List Char)
    (hvol : '_' ∉ vol) :
    decode_poem_token (encode_poem_token pid vol part) =
      Except.ok ((pid : Int), some vol, (part : Int)) := by
  have hpoem : '_' ∉ "poem".toList := by decide
  have hsplit : pySplit '_' (encode_poem_token pid vol part) =
      ["poem".toList, natDigits pid, vol, natDigits part] := by
    unfold encode_poem_token
    rw [pySplit_append '_' _ _ hpoem,
        pySplit_append '_' _ _ (natDigits_no_underscore pid),
        pySplit_append '_' _ _ hvol,
        pySplit_no_sep '_' _ (natDigits_no_underscore part)]
  simp only [decode_poem_token, hsplit]
  simp [parsePyInt_natDigits]

theorem C5_token_roundtrip_witness :
    ('_' ∉ "vol1".toList) ∧
      decode_poem_token (encode_poem_token 42 "vol1".toList 2) =
        Except.ok ((42 : Int), some "vol1".toList, (2 : Int)) :=
  ⟨by decide, C5_token_roundtrip 42 2 "vol1".toList (by decide)⟩

/-- C6 counterexample: the claim says an out-of-range `chunk_index` yields
a navigation view with `chunk_index == 0`.  For the one-chunk body `"ab"`
and `part = 5`, `text_parts[5]` raises `IndexError`, caught at
`bot.py:774-776` into the generic error message — not a clamped view. -/
theorem C6_counterexample :
    send_poem_render ("ab".toList) 5 = RenderResult.errorMessage ∧
      send_poem_render ("ab".toList) 5 ≠
        RenderResult.view ("ab".toList) 0 1 :=
  ⟨by decide, by decide⟩

/-- C6 (amended): a token whose `chunk_index` is at least the recomputed
chunk count makes `text_parts[part]` raise `IndexError`; the `except`
clause turns it into the generic error response.  Rendering therefore
yields the error message — no exception escapes, but no clamping to
chunk 0 happens either. -/
theorem C6_out_of_range_error (poemText : List Char) (part : Int)
    (parts : List (List Char))
    (hsplit : split_long_message poemText 3000 = some parts)
    (hge : (parts.length : Int) ≤ part) :
    send_poem_render poemText part = RenderResult.errorMessage := by
  unfold send_poem_render
  rw [hsplit]
  simp [pyIndex_none_of_ge parts part hge]

theorem C6_out_of_range_error_witness :
    split_long_message ("ab".toList) 3000 = some ["ab".toList] ∧
      send_poem_render ("ab".toList) 5 = RenderResult.errorMessage :=
  ⟨by decide,
   C6_out_of_range_error ("ab".toList) 5 ["ab".toList] (by decide) (by decide)⟩

/-- C7 counterexample: for the empty body, `len(text) <= max_length` holds,
so `split_long_message` returns `[text]`, i.e. the one-element sequence
containing the empty string — not the empty sequence the claim requires. -/
theorem C7_counterexample :
    split_long_message ([] : List Char) 4000 = some [[]] ∧
      split_long_message ([] : List Char) 4000 ≠ some [] :=
  ⟨by decide, by decide⟩

/-- C7 (amended): for the empty body and any `max_chunk_size`, the chunker
returns the one-element sequence containing the empty string. -/
theorem C7_empty_body (maxLen : Nat) :
    split_long_message [] maxLen = some [[]] := by
  unfold split_long_message
  rw [if_pos (by simp)]

/-- C8 counterexample: the claim classifies a chunk-index field that does
not parse as a NON-NEGATIVE integer as corrupted and demands a structured
decode error.  But Python's `int` accepts a sign: decoding
`"poem_1_vol_-2"` succeeds with `part = -2` instead of erroring. -/
theorem C8_counterexample :
    decode_poem_token ("poem_1_vol_-2".toList) =
        Except.ok ((1 : Int), some ("vol".toList), (-2 : Int)) ∧
      (-2 : Int) < 0 :=
  ⟨rfl, by decide⟩

/-- C8 (amended): every token whose required integer field is missing or
fails integer parsing yields a structured decode error, and every decode
error is mapped to the user-visible retry alert of the `except` clause —
never a crash; in particular a token missing the delimiter gives
`MalformedToken` and a non-numeric chunk-index field gives
`InvalidChunkIndex`.  A chunk-index field that parses as a NEGATIVE
integer, however, is accepted (Python `int` accepts a sign). -/
theorem C8_decode_errors_alert :
    (∀ data e, decode_poem_token data = .error e →
        button_callback_poem data = CallbackResponse.retryAlert) ∧
      decode_poem_token ("poem".toList) =
        .error TokenError.malformedToken ∧
      decode_poem_token ("poem_1_vol_x".toList) =
        .error TokenError.invalidChunkIndex := by
  refine ⟨?_, rfl, rfl⟩
  intro data e h
  unfold button_callback_poem
  rw [h]

theorem C8_decode_errors_alert_witness :
    button_callback_poem ("poem".toList) = CallbackResponse.retryAlert :=
  C8_decode_errors_alert.1 ("poem".toList) TokenError.malformedToken rfl

/-- C9 counterexample: the claim says the chunker raises on
`max_chunk_size ≤ 0`.  It does not: at `max_length = 0` with the non-empty
body `"a"` the loop body emits the empty part and leaves the text
unchanged, so the loop never terminates (every fuel yields no result) and
no exception is ever raised. -/
theorem C9_counterexample :
    split_long_message ['a'] 0 = none ∧ splitStep 0 ['a'] = [] ∧
      splitLoop 0 100 ['a'] = none :=
  ⟨by decide, by decide, splitLoop_zero_none 100 ['a'] (by decide)⟩

/-- C9 (amended): the chunker does not fail fast on
`max_chunk_size ≤ 0` — at `max_chunk_size = 0` with a non-empty body the
loop never terminates (no fuel suffices).  For every `max_chunk_size > 0`
it terminates on every body, each loop iteration consuming at least one
character of the remaining text. -/
theorem C9_termination :
    (∀ text maxLen, 0 < maxLen → (split_long_message text maxLen).isSome) ∧
      (∀ text maxLen, 0 < maxLen → text ≠ [] →
        1 ≤ (splitStep maxLen text).length) ∧
      (∀ fuel text, text ≠ [] → splitLoop 0 fuel text = none) := by
  refine ⟨?_, ?_, splitLoop_zero_none⟩
  · intro text maxLen hmax
    unfold split_long_message
    split
    · rfl
    · exact splitLoop_isSome maxLen hmax text.length text (le_refl _)
  · intro text maxLen hmax htext
    exact splitStep_length_pos maxLen text hmax htext

theorem C9_termination_witness :
    (split_long_message ("ab\ncd".toList) 2).isSome ∧
      splitLoop 0 7 ['a'] = none :=
  ⟨C9_termination.1 ("ab\ncd".toList) 2 (by decide),
   C9_termination.2.2 7 ['a'] (by decide)⟩

/-- C10: in `show_poems_page`, for every non-empty poem list and every
integer page argument, an out-of-range page is reset to 1 before use, the
page actually rendered lies in `[1, total_pages]`, and the indexing of the
page-chunk list never goes out of range. -/
theorem C10_page_clamp (poems : List Nat) (hne : poems ≠ []) (page : Int) :
    1 ≤ (show_poems_page_select poems page).1 ∧
      (show_poems_page_select poems page).1 ≤
        ((pyChunks 10 poems).length : Int) ∧
      ((page < 1 ∨ ((pyChunks 10 poems).length : Int) < page) →
        (show_poems_page_select poems page).1 = 1) ∧
      (show_poems_page_select poems page).2.isSome := by
  have htot : 1 ≤ (pyChunks 10 poems).length := pyChunks_length_pos 10 poems hne
  simp only [show_poems_page_select]
  by_cases hpage : page < 1 ∨ ((pyChunks 10 poems).length : Int) < page
  · rw [if_pos hpage]
    refine ⟨le_refl _, by exact_mod_cast htot, fun _ => rfl, ?_⟩
    exact pyIndex_isSome _ _ (by omega) (by omega)
  · rw [if_neg hpage]
    push_neg at hpage
    refine ⟨hpage.1, hpage.2, fun hc => absurd hc (by push_neg; exact hpage), ?_⟩
    exact pyIndex_isSome _ _ (by omega) (by omega)

theorem C10_page_clamp_witness :
    1 ≤ (show_poems_page_select [1, 2, 3] (-7)).1 ∧
      (show_poems_page_select [1, 2, 3] (-7)).2.isSome :=
  ⟨(C10_page_clamp [1, 2, 3] (by decide) (-7)).1,
   (C10_page_clamp [1, 2, 3] (by decide) (-7)).2.2.2⟩

end BalkhiBot
